import Mathlib

/-!
Shallow embedding of `Jaggilines/default.js` (a fixed-point, table-driven
renderer of fractal mountains) together with proofs of the specification
claims about it.

Modelling conventions:
* JavaScript numbers are embedded as `Int` where the source only ever holds
  integers (coordinates, angles, table entries, screen columns), and as `Rat`
  on the terrain-generation path where `Math.random()` products flow into
  `clamp`/`vary` before `Math.floor` is applied.
* The JS remainder operator `%` (sign of the dividend) is `Int.tmod`; the
  source's `mod` helper is embedded on top of it.
* The JS arithmetic shift `>>` coerces to a 32-bit signed integer and then
  floor-divides by a power of two; `toInt32`/`jsShr` embed exactly that.
* The JS bitwise and `&` on 32-bit signed integers agrees with `Int.land`
  for operands of magnitude below 2^31, which covers every use in the source.
* Fallible operations (array indexing that could be out of bounds, loops
  that could diverge) return `Option`: `none` marks the crash/divergence.
-/

namespace Jaggilines

/-! ## Constants (translated from the top of the source file) -/

/-- Valkyrie 4 most-significant coordinate bits map to map coordinates. -/
def mapCoordinateBits : Nat := 4

/-- Number of bits of coordinates between mountain tops. -/
def bitsBetweenTops : Nat := 12

/-- Valkyrie coordinates are 16-bit integers. -/
def coordinateBits : Nat := mapCoordinateBits + bitsBetweenTops

/-- The mountain summit map is 16 x 16. -/
def mapSize : Nat := 2 ^ mapCoordinateBits

/-- Power of two for viewport scale. -/
def viewportScalePowerOfTwo : Nat := 2

/-- The logical width of the viewport: 640 / 4 = 160. -/
def viewportWidth : Int := 640 / 2 ^ viewportScalePowerOfTwo

/-- Vertically, mountains range up to 2^12 in height. -/
def maxHeightBits : Nat := 12

/-- Maximum mountain height (4096). -/
def maxHeight : Int := 2 ^ maxHeightBits

/-- Variations from summit to summit are at most maxHeight / 16 (256). -/
def maxVariation : Int := maxHeight / 2 ^ 4

/-- Clipping distance in rings of mountains. -/
def viewDistance : Nat := 5

/-- Default Valkyrie thrust (32). -/
def defaultThrust : Int := 2 ^ 5

/-- Base-2 log of the number of units of angle in a degree. -/
def angleUnitPowerOfTwo : Nat := 2

/-- North direction in units of angle (360). -/
def north : Int := 90 * 2 ^ angleUnitPowerOfTwo

/-- Number of units of angle in a quarter of a circle (360). -/
def quarterCircle : Int := 90 * 2 ^ angleUnitPowerOfTwo

/-- Number of units of angle in a half circle (720). -/
def halfCircle : Int := 180 * 2 ^ angleUnitPowerOfTwo

/-- Number of units of angle in a full circle (1440). -/
def fullCircle : Int := 360 * 2 ^ angleUnitPowerOfTwo

/-! ## JavaScript numeric primitives -/

/-- The JS `%` operator: remainder with the sign of the dividend. -/
def jsRem (a b : Int) : Int := Int.tmod a b

/-- JS `ToInt32`: reduce into the signed 32-bit range, as the `>>` and `&`
operators do before operating.  Identity on `[-2^31, 2^31)`. -/
def toInt32 (n : Int) : Int := (n + 2 ^ 31) % 2 ^ 32 - 2 ^ 31

/-- The JS arithmetic right shift `n >> k`: `ToInt32` then floor-divide by
`2^k`.  (Shift counts in the source are always in `[0, 31]`.) -/
def jsShr (n : Int) (k : Nat) : Int := Int.fdiv (toInt32 n) (2 ^ k)

/-- Positive modulo, translated from the source's `mod` helper:
`((n % m) + m) % m` with the JS `%`. -/
def mod (n m : Int) : Int := jsRem (jsRem n m + m) m

/-! ## `findIndexOf`: binary-search inverse lookup

The source's loop keeps a `low`/`high` pair and runs `while (true)`; it exits
only by returning.  `searchGo` embeds one loop iteration per unit of fuel, so
`none` means the loop is still running when the fuel runs out; the fuel-
sufficiency proofs below show `table.length` fuel is enough whenever the
table has at least two entries, while a single-entry table exhausts any
amount of fuel when the query misses (the JS loop diverges there). -/

/-- One fuel-counted unrolling of the `while (true)` loop of `findIndexOf`.
Out-of-range reads use `getD _ 0`; under the `low < high ≤ length - 1`
invariant maintained by the caller every read is in bounds. -/
def searchGo (val : Int) (table : List Int) : Nat → Nat → Nat → Option Nat
  | 0, _, _ => none
  | fuel + 1, low, high =>
    if high - low = 1 then
      some (if table.getD high 0 ≤ val then high else low)
    else if table.getD ((low + high) / 2) 0 = val then some ((low + high) / 2)
    else if val < table.getD ((low + high) / 2) 0 then
      searchGo val table fuel low ((low + high) / 2)
    else searchGo val table fuel ((low + high) / 2) high

/-- `findIndexOf(val, table)` from the source: binary search from
`low = 0`, `high = table.length - 1`.  The result is `none` when the JS
loop would never return (possible only for tables of fewer than two
entries); `table.length` units of fuel are proved sufficient otherwise. -/
def findIndexOf (val : Int) (table : List Int) : Option Nat :=
  if 2 ≤ table.length then searchGo val table table.length 0 (table.length - 1)
  else none

/-- The regression table from the source's test harness. -/
def c3Table : List Int := [3, 7, 15, 15, 16, 18]

/-- The expected index sequence from the source's test harness (22 entries). -/
def c3Expected : List Nat := [0, 0, 0, 0, 0, 0, 0, 1, 1, 1, 1, 1, 1, 1, 1, 2, 4, 4, 5, 5, 5, 5]

/-! ## Rendering: occlusion compositing and adaptive interpolation

`Viewport.#drawMountainColumn` mutates a canvas and the `#topHeights`
occlusion array.  The embedding records the occlusion array as a function
from column index to recorded height (`-1` = undrawn, as in
`new Array(width).fill(-1)`), and the canvas writes as an explicit list of
emitted paint commands, in order. -/

/-- One span-paint command, as described by the spec's renderer interface:
the first visit of a column paints sky above and mountain below in one
command; a later, taller candidate paints a one-pixel edge line at the old
boundary plus the newly exposed mountain band. -/
inductive RenderCmd where
  | paintSkyAndMountain : Int → Int → RenderCmd
  | edgeLine : Int → Int → RenderCmd
  | extendMountain : Int → Int → Int → RenderCmd
deriving DecidableEq

/-- Whether a command paints or extends a mountain column (the edge/shadow
line at the old boundary is bookkeeping, not a paint/extend). -/
def RenderCmd.isPaintOrExtend : RenderCmd → Bool
  | RenderCmd.paintSkyAndMountain _ _ => true
  | RenderCmd.extendMountain _ _ _ => true
  | RenderCmd.edgeLine _ _ => false

/-- The per-frame renderer state: the occlusion buffer plus the emitted
commands so far. -/
structure RenderState where
  heights : Nat → Int
  commands : List RenderCmd

/-- `this.#topHeights = new Array(this.width).fill(-1)` with no commands
emitted yet. -/
def resetState : RenderState := ⟨fun _ => -1, []⟩

/-- `Viewport.#drawMountainColumn(xScreen, mountainTop)`. -/
def drawMountainColumn (width : Int) (st : RenderState) (xScreen mountainTop : Int) :
    RenderState :=
  if xScreen < 0 ∨ width ≤ xScreen then st
  else if st.heights xScreen.toNat = -1 then
    { heights := Function.update st.heights xScreen.toNat mountainTop,
      commands := st.commands ++ [RenderCmd.paintSkyAndMountain xScreen mountainTop] }
  else if mountainTop > st.heights xScreen.toNat then
    { heights := Function.update st.heights xScreen.toNat mountainTop,
      commands := st.commands
        ++ [RenderCmd.edgeLine xScreen (st.heights xScreen.toNat),
            RenderCmd.extendMountain xScreen (st.heights xScreen.toNat) mountainTop] }
  else st

/-- The type of the source's pluggable `InterpolationAlgorithm` callback:
`(yMountain1, yMountain2, xScreen1, xScreen2, yScreen1, yScreen2, bisections)
↦ (midMountainY, midScreenY)`. -/
def InterpolationAlgorithm : Type :=
  Int → Int → Int → Int → Int → Int → Nat → Int × Int

/-- `linearInterpolation` from the source. -/
def linearInterpolation : InterpolationAlgorithm :=
  fun yMountain1 yMountain2 _ _ yScreen1 yScreen2 _ =>
    (jsShr (yMountain1 + yMountain2) 1, jsShr (yScreen1 + yScreen2) 1)

/-- `Viewport.#interpolate`, fuel-counted: one unit of fuel per recursion
level, `st` returned unchanged when fuel runs out (the recursion depth is
bounded by log2 of the screen-column gap, so any fuel beyond that bound
yields the source's behaviour).  Note the first guard tests `y2` against
the width where its own comment says both *points* off-screen — embedded
exactly as written in the source. -/
def interpolate (interp : InterpolationAlgorithm) (width : Int) :
    Nat → RenderState → Int → Int → Int → Int → Int → Int → Nat → RenderState
  | 0, st, _, _, _, _, _, _, _ => st
  | fuel + 1, st, yMountain1, yMountain2, x1, x2, y1, y2, bisections =>
    if (x1 < 0 ∨ width ≤ x1) ∧ (x2 < 0 ∨ width ≤ y2) then st
    else
      let midX := jsShr (x1 + x2) 1
      if midX ≠ x1 ∧ midX ≠ x2 then
        let p := interp yMountain1 yMountain2 x1 x2 y1 y2 bisections
        let st1 := drawMountainColumn width st midX p.2
        let st2 := interpolate interp width fuel st1 yMountain1 p.1 x1 midX y1 p.2
          (bisections + 1)
        interpolate interp width fuel st2 p.1 yMountain2 midX x2 p.2 y2 (bisections + 1)
      else st

/-- Modelled from the spec: "both endpoints are fully off-viewport (each
endpoint's screen column < 0 or >= viewport width)" — the condition claim C6
says makes `#interpolate` return immediately.  Kept separate from the code's
guard so the two can be compared. -/
def bothEndpointsOffViewport (x1 x2 width : Int) : Prop :=
  (x1 < 0 ∨ width ≤ x1) ∧ (x2 < 0 ∨ width ≤ x2)

/-! ## The terrain map -/

/-- The `Map` class: its size and the 2D elevation grid `#map`. -/
structure Map where
  size : Nat
  grid : List (List Int)

/-- Shape invariant established by the constructor and preserved by `set`:
the grid is `size` rows of `size` entries. -/
def Map.wf (m : Map) : Prop :=
  m.grid.length = m.size ∧ ∀ row ∈ m.grid, row.length = m.size

/-- The constructor's `Array(size).fill().map(_ => Array(size).fill(0))`. -/
def mkMap (size : Nat) : Map :=
  ⟨size, List.replicate size (List.replicate size 0)⟩

/-- `Map.get(row, col)`: both coordinates are reduced with `mod(_, size)`
before indexing.  An out-of-bounds array access is `none`. -/
def Map.get (m : Map) (row col : Int) : Option Int :=
  (m.grid[(mod row m.size).toNat]?).bind fun r => r[(mod col m.size).toNat]?

/-- `Map.get` totalized with default 0; under `wf` the underlying access
is always in bounds so the default is never used. -/
def Map.getE (m : Map) (row col : Int) : Int :=
  (Map.get m row col).getD 0

/-- `Map.set(row, col, val)`: floors the value, wraps both coordinates,
stores.  (Change-handler notification carries no data we reason about.) -/
def Map.set (m : Map) (row col : Int) (val : ℚ) : Map :=
  ⟨m.size,
    m.grid.set (mod row m.size).toNat
      ((m.grid.getD (mod row m.size).toNat []).set (mod col m.size).toNat ⌊val⌋)⟩

/-- `clamp(val, max)` from the source, on the rational values that flow
through terrain generation (where `Math.random()` appears upstream). -/
def clamp (val max : ℚ) : ℚ :=
  if val < 0 then 0 else if val > max then max else (⌊val⌋ : ℚ)

/-- The source's `clamp` applied to integer arguments (as in
`Valkyrie.move`, where every operand is an integer and `Math.floor` is the
identity). -/
def clampInt (val max : Int) : Int :=
  if val < 0 then 0 else if val > max then max else val

/-- `vary(val, varyBy, max)`: `clamp(val + random * 2 * varyBy - varyBy, max)`
with the random draw made an explicit argument `r`. -/
def vary (val varyBy max : ℚ) (r : ℚ) : ℚ :=
  clamp (val + r * 2 * varyBy - varyBy) max

/-- `varyFromAverage(vals, varyBy)`: vary around the average, clamped
against the default `maxHeight`. -/
def varyFromAverage (vals : List ℚ) (varyBy : ℚ) (r : ℚ) : ℚ :=
  vary (vals.sum / vals.length) varyBy (maxHeight : ℚ) r

/-- The mutual recursion `#diamond`/`#square`, fuel-counted (one unit per
nesting level) with an explicit stream of random draws indexed by `k`.
`isDiamond = true` is `#diamond`, `false` is `#square`.  The call depth is
at most `2 * log2 size + 2`, so `2 * size + 2` fuel (as `generate`
supplies) always reaches the source's full recursion. -/
def dsGo (rng : Nat → ℚ) :
    Nat → Bool → Int → Int → Int → Map → Nat → Map × Nat
  | 0, _, _, _, _, m, k => (m, k)
  | fuel + 1, isDiamond, row, col, size, m, k =>
    if size ≤ 1 then (m, k)
    else
      let halfSize := jsShr size 1
      if isDiamond then
        let halfSizex2 := halfSize * 2
        let m1 := Map.set m (row + halfSize) (col + halfSize)
          (varyFromAverage
            [(Map.getE m row col : ℚ), (Map.getE m row (col + halfSizex2) : ℚ),
             (Map.getE m (row + halfSizex2) col : ℚ),
             (Map.getE m (row + halfSizex2) (col + halfSizex2) : ℚ)]
            ((maxVariation : ℚ) * (size : ℚ)) (rng k))
        let p := dsGo rng fuel false (row + halfSizex2) (col + halfSize) size m1 (k + 1)
        dsGo rng fuel false (row + halfSize) (col + halfSizex2) size p.1 p.2
      else
        let m1 := Map.set m (row + halfSize) (col + halfSize)
          (varyFromAverage
            [(Map.getE m (row - halfSize) col : ℚ), (Map.getE m (row + halfSize) col : ℚ),
             (Map.getE m row (col + halfSize) : ℚ), (Map.getE m row (col - halfSize) : ℚ)]
            ((maxVariation : ℚ) * (size : ℚ)) (rng k))
        let p := dsGo rng fuel true row col halfSize m1 (k + 1)
        dsGo rng fuel true (row - halfSize) col halfSize p.1 p.2

/-- `Map.generate()`: seed `(0,0)` with `random * maxHeight`, then run
`#diamond(0, 0, size)`. -/
def Map.generate (m : Map) (rng : Nat → ℚ) : Map :=
  let m1 := Map.set m 0 0 (rng 0 * (maxHeight : ℚ))
  (dsGo rng (2 * m.size + 2) true 0 0 (m.size : Int) m1 1).1

/-- All elevations stored in the grid lie in `[0, maxHeight]`. -/
def Map.allInRange (m : Map) : Prop :=
  ∀ row ∈ m.grid, ∀ v ∈ row, 0 ≤ v ∧ v ≤ maxHeight

/-- A stream of draws from `Math.random()`: each value in `[0, 1)`. -/
def randomStream (rng : Nat → ℚ) : Prop :=
  ∀ i, 0 ≤ rng i ∧ rng i < 1

/-! ## Trigonometric tables and the vehicle

The source fills these tables once at startup with `Math.cos`/`Math.sin`/
`Math.tan`; the embedding uses the exact real functions.  The only table
entries any proof below evaluates are at index 0, where the double-precision
and exact values coincide exactly. -/

/-- `cosTable[angle] = Math.floor(Math.cos(angle * PI / halfCircle) * 2^12)`. -/
noncomputable def cosTable (i : Nat) : Int :=
  ⌊Real.cos (i * Real.pi / ((halfCircle : Int) : ℝ)) * 2 ^ bitsBetweenTops⌋

/-- `sinTable[angle] = Math.floor(Math.sin(angle * PI / halfCircle) * 2^12)`. -/
noncomputable def sinTable (i : Nat) : Int :=
  ⌊Real.sin (i * Real.pi / ((halfCircle : Int) : ℝ)) * 2 ^ bitsBetweenTops⌋

/-- `tanTable[angle] = Math.round(Math.tan(angle * PI / halfCircle) * 2^8)`,
for `fullCircle >> 2` entries. -/
noncomputable def tanTable (i : Nat) : Int :=
  round (Real.tan (i * Real.pi / ((halfCircle : Int) : ℝ)) * 2 ^ 8)

/-- A bounds-checked table read: JS indexing out of `[0, len)` yields
`undefined`, which poisons every arithmetic consumer — embedded as `none`. -/
def tableGet (f : Nat → Int) (len : Int) (i : Int) : Option Int :=
  if 0 ≤ i ∧ i < len then some (f i.toNat) else none

/-- `tan(angle)` from the source: explicit `undefined` at the asymptotes,
otherwise one quadrant of table reflected by the symmetries of tan. -/
noncomputable def tan (angle : Int) : Option Int :=
  if jsRem (angle - quarterCircle) halfCircle = 0 then none
  else
    (tableGet tanTable (jsShr fullCircle 2)
        (if mod angle halfCircle > quarterCircle then halfCircle - mod angle halfCircle
         else mod angle halfCircle)).map
      fun absResult =>
        if mod angle halfCircle > quarterCircle then -absResult else absResult

/-- The ship's state: the public fields of the `Valkyrie` class. -/
structure Valkyrie where
  x : Int
  y : Int
  z : Int
  thrust : Int
  heading : Int
  pitch : Int
  roll : Int
  rollToAngle : Int
deriving DecidableEq

/-- `Valkyrie.move()`: one integration step.  The heading is reassigned
(normalized `mod fullCircle`) before it is used as a table index; the pitch
indexes the tables raw.  Any out-of-bounds table read is `none`. -/
noncomputable def Valkyrie.move (s : Valkyrie) : Option Valkyrie :=
  match tableGet cosTable fullCircle (mod (s.heading + s.roll * s.rollToAngle) fullCircle),
      tableGet cosTable fullCircle s.pitch,
      tableGet sinTable fullCircle (mod (s.heading + s.roll * s.rollToAngle) fullCircle),
      tableGet sinTable fullCircle s.pitch with
  | some ch, some cp, some sh, some sp =>
    some
      { x := mod (s.x + jsShr (jsShr (s.thrust * ch * cp) bitsBetweenTops) bitsBetweenTops)
          (2 ^ coordinateBits),
        y := mod (s.y - jsShr (jsShr (s.thrust * sh * cp) bitsBetweenTops) bitsBetweenTops)
          (2 ^ coordinateBits),
        z := clampInt (s.z + jsShr (s.thrust * sp) bitsBetweenTops) (2 ^ coordinateBits),
        thrust := s.thrust, heading := mod (s.heading + s.roll * s.rollToAngle) fullCircle,
        pitch := s.pitch, roll := s.roll, rollToAngle := s.rollToAngle }
  | _, _, _, _ => none

/-- The ship constructed on page load:
`new Valkyrie((1 << coordinateBits) >> 1, (1 << coordinateBits) >> 1,
maxHeight, defaultThrust, north, 0, 0, 1)`. -/
def initialShip : Valkyrie :=
  ⟨32768, 32768, maxHeight, defaultThrust, north, 0, 0, 1⟩

end Jaggilines

namespace Jaggilines

/-! ## Arithmetic facts about the JS primitives -/

/-- The JS remainder of a positive modulus is greater than `-m`. -/
theorem neg_lt_jsRem (a : Int) {b : Int} (hb : 0 < b) : -b < jsRem a b := by
  unfold jsRem
  cases a with
  | ofNat m =>
    have h0 : (0 : Int) ≤ Int.tmod (Int.ofNat m) b :=
      Int.tmod_nonneg b (Int.ofNat_nonneg m)
    omega
  | negSucc m =>
    cases b with
    | ofNat n =>
      have hn : 0 < n := by
        simp only [Int.ofNat_eq_natCast] at hb
        omega
      have hrepr : Int.tmod (Int.negSucc m) (Int.ofNat n)
          = -(((m + 1) % n : Nat) : Int) := rfl
      rw [hrepr]
      have h2 := Nat.mod_lt (m + 1) hn
      simp only [Int.ofNat_eq_natCast]
      omega
    | negSucc n => exact absurd (lt_trans hb (Int.negSucc_lt_zero n)) (lt_irrefl 0)

/-- The source's `mod` agrees with the mathematical (Euclidean) remainder
for a positive modulus. -/
theorem mod_eq_emod (n m : Int) (hm : 0 < m) : mod n m = n % m := by
  unfold mod
  have hlow : -m < jsRem n m := neg_lt_jsRem n hm
  have hhigh : jsRem n m < m := Int.tmod_lt_of_pos n hm
  have hnn : 0 ≤ jsRem n m + m := by omega
  have hrem : jsRem n m + m < 2 * m := by omega
  have h1 : jsRem (jsRem n m + m) m = (jsRem n m + m) % m :=
    Int.tmod_eq_emod hnn (le_of_lt hm)
  have h2 : (jsRem n m + m) % m = jsRem n m % m := by
    have h := Int.add_mul_emod_self_left (jsRem n m) m 1
    rw [mul_one] at h
    exact h
  have h3 : jsRem n m % m = n % m := by
    have hdef : jsRem n m = n - m * n.tdiv m := Int.tmod_def n m
    have : n = jsRem n m + m * n.tdiv m := by omega
    calc jsRem n m % m = (jsRem n m + m * n.tdiv m) % m := by
          rw [Int.add_mul_emod_self_left]
      _ = n % m := by rw [← this]
  rw [h1, h2, h3]

/-- `mod` lands in `[0, m)` for positive `m`. -/
theorem mod_range (n m : Int) (hm : 0 < m) : 0 ≤ mod n m ∧ mod n m < m := by
  rw [mod_eq_emod n m hm]
  exact ⟨Int.emod_nonneg n (by omega), Int.emod_lt_of_pos n hm⟩

/-- With fuel at least the width of the search interval, the embedded
`while (true)` loop exits with an index inside the interval — for any table
contents, hence in particular for sorted tables. -/
theorem searchGo_some (val : Int) (table : List Int) :
    ∀ (fuel low high : Nat), low < high → high - low ≤ fuel →
      ∃ i, searchGo val table fuel low high = some i ∧ low ≤ i ∧ i ≤ high := by
  intro fuel
  induction fuel with
  | zero => intro low high hlh hle; omega
  | succ fuel ih =>
    intro low high hlh hle
    have hunfold : searchGo val table (fuel + 1) low high
        = if high - low = 1 then
            some (if table.getD high 0 ≤ val then high else low)
          else if table.getD ((low + high) / 2) 0 = val then some ((low + high) / 2)
          else if val < table.getD ((low + high) / 2) 0 then
            searchGo val table fuel low ((low + high) / 2)
          else searchGo val table fuel ((low + high) / 2) high := rfl
    by_cases h1 : high - low = 1
    · refine ⟨if table.getD high 0 ≤ val then high else low, ?_, ?_⟩
      · rw [hunfold, if_pos h1]
      · split <;> omega
    · have hgap : 2 ≤ high - low := by omega
      have hmidlow : low < (low + high) / 2 := by omega
      have hmidhigh : (low + high) / 2 < high := by omega
      by_cases h2 : table.getD ((low + high) / 2) 0 = val
      · exact ⟨(low + high) / 2, by rw [hunfold, if_neg h1, if_pos h2], by omega, by omega⟩
      · by_cases h3 : val < table.getD ((low + high) / 2) 0
        · obtain ⟨i, hi, hlo, hhi⟩ := ih low ((low + high) / 2) hmidlow (by omega)
          exact ⟨i, by rw [hunfold, if_neg h1, if_neg h2, if_pos h3, hi], by omega, by omega⟩
        · obtain ⟨i, hi, hlo, hhi⟩ := ih ((low + high) / 2) high hmidhigh (by omega)
          exact ⟨i, by rw [hunfold, if_neg h1, if_neg h2, if_neg h3, hi], by omega, by omega⟩

/-- Claim C9: on a sorted table of at least two entries, `findIndexOf`
terminates for every integer query and yields an index in
`[0, table.length - 1]`; and the two-entry precondition is needed — on a
single-entry table the loop body never exits when the query misses the
entry, no matter how much fuel it is given. -/
theorem claim9_findIndexOf_total :
    (∀ (val : Int) (table : List Int), List.Sorted (· ≤ ·) table →
      2 ≤ table.length →
      ∃ i, findIndexOf val table = some i ∧ i ≤ table.length - 1)
    ∧ ∀ fuel, searchGo 1 [3] fuel 0 0 = none := by
  constructor
  · intro val table _hsorted hlen
    obtain ⟨i, hi, _, hhi⟩ :=
      searchGo_some val table table.length 0 (table.length - 1) (by omega) (by omega)
    exact ⟨i, by simpa [findIndexOf, hlen] using hi, hhi⟩
  · intro fuel
    induction fuel with
    | zero => rfl
    | succ fuel ih => simpa [searchGo] using ih

/-- Witness for claim C9 at a concrete sorted table and query. -/
theorem claim9_findIndexOf_total_witness :
    List.Sorted (· ≤ ·) c3Table ∧ 2 ≤ c3Table.length
    ∧ ∃ i, findIndexOf 16 c3Table = some i ∧ i ≤ c3Table.length - 1 :=
  ⟨by decide, by decide, claim9_findIndexOf_total.1 16 c3Table (by decide) (by decide)⟩

/-! ## Claim C3 -/

/-- Claim C3, counterexample: as stated the claim is false — the queries
0..19 are twenty values, but the required output sequence has twenty-two
entries, so the map of `findIndexOf` over 0..19 cannot equal it. -/
theorem claim3_counterexample :
    ¬ ((List.range 20).map (fun v => findIndexOf (v : Int) c3Table)
        = c3Expected.map some) := by
  decide

/-- Claim C3, amended: `findIndexOf` on the table [3, 7, 15, 15, 16, 18]
with each query value 0..21 in turn yields exactly the sequence
[0,0,0,0,0,0,0,1,1,1,1,1,1,1,1,2,4,4,5,5,5,5], following the tie-break of
returning the higher index of the final adjacent pair when its table value
is ≤ the query, else the lower index.  (Queries 0..19 yield the first
twenty entries; the source's test harness compares only those.) -/
theorem claim3_amended :
    (List.range 22).map (fun v => findIndexOf (v : Int) c3Table)
      = c3Expected.map some := by
  decide

/-! ## Claim C1: occlusion compositing per screen column -/

/-- Claim C1: once a column has a recorded height (≠ -1, the undrawn
marker), no submission ever decreases any column's recorded height; and in
the concrete ring-order scenario — candidate tops 10, then 25, then 18 on
one column of a reset buffer — the final recorded height is 25, exactly two
paint/extend commands are emitted, and the third candidate (18 ≤ 25) draws
nothing at all. -/
theorem claim1_occlusion :
    (∀ (width : Int) (st : RenderState) (x top : Int) (j : Nat),
        st.heights j ≠ -1 →
        st.heights j ≤ (drawMountainColumn width st x top).heights j)
    ∧ ((drawMountainColumn viewportWidth
          (drawMountainColumn viewportWidth
            (drawMountainColumn viewportWidth resetState 0 10) 0 25) 0 18).heights 0 = 25
      ∧ ((drawMountainColumn viewportWidth
            (drawMountainColumn viewportWidth
              (drawMountainColumn viewportWidth resetState 0 10) 0 25) 0 18).commands.filter
          RenderCmd.isPaintOrExtend).length = 2
      ∧ (drawMountainColumn viewportWidth
            (drawMountainColumn viewportWidth
              (drawMountainColumn viewportWidth resetState 0 10) 0 25) 0 18).commands
          = (drawMountainColumn viewportWidth
              (drawMountainColumn viewportWidth resetState 0 10) 0 25).commands) := by
  constructor
  · intro width st x top j hj
    unfold drawMountainColumn
    split
    · exact le_refl _
    · split
      · by_cases hxj : x.toNat = j
        · subst hxj
          simp only [Function.update_same]
          omega
        · simp [Function.update_noteq (fun h => hxj h.symm)]
      · split
        · by_cases hxj : x.toNat = j
          · subst hxj
            simp only [Function.update_same]
            omega
          · simp [Function.update_noteq (fun h => hxj h.symm)]
        · exact le_refl _
  · refine ⟨by decide, by decide, by decide⟩

/-- Witness for claim C1's monotonicity component: the column recorded
height 10 after the first submission does not decrease when 25 arrives. -/
theorem claim1_occlusion_witness :
    (drawMountainColumn viewportWidth resetState 0 10).heights 0 ≠ -1
    ∧ (drawMountainColumn viewportWidth resetState 0 10).heights 0
        ≤ (drawMountainColumn viewportWidth
            (drawMountainColumn viewportWidth resetState 0 10) 0 25).heights 0 :=
  ⟨by decide, claim1_occlusion.1 viewportWidth _ 0 25 0 (by decide)⟩

/-! ## Claim C7: toroidal wrapping of the terrain map -/

/-- The source's `mod` is invariant under adding the modulus. -/
theorem mod_add_cancel (n m : Int) (hm : 0 < m) : mod (n + m) m = mod n m := by
  rw [mod_eq_emod _ _ hm, mod_eq_emod _ _ hm]
  have h := Int.add_mul_emod_self_left n m 1
  rw [mul_one] at h
  exact h

/-- Claim C7: the terrain map is toroidal — `get` is invariant under adding
the grid size to both coordinates, a query one past column `N-1` wraps to
column 0, every `get` on a well-formed map hits a stored cell (no
out-of-bounds access), and `set` keeps the map well-formed and stores the
floored value at the wrapped cell. -/
theorem claim7_toroidal (m : Map) (row col : Int) (v : ℚ)
    (hwf : m.wf) (hpos : 0 < m.size) :
    Map.get m (row + m.size) (col + m.size) = Map.get m row col
    ∧ (Map.get m row col).isSome = true
    ∧ Map.get m row (m.size : Int) = Map.get m row 0
    ∧ (Map.set m row col v).wf
    ∧ Map.get (Map.set m row col v) row col = some ⌊v⌋ := by
  have hmz : (0 : Int) < (m.size : Int) := by exact_mod_cast hpos
  have hrowlt : ∀ n : Int, (mod n m.size).toNat < m.size := by
    intro n
    have h := mod_range n m.size hmz
    exact (Int.toNat_lt' (n := m.size) (by omega)).mpr h.2
  have hgridlen : m.grid.length = m.size := hwf.1
  have hrl : (mod row (m.size : Int)).toNat < m.grid.length := by
    have := hrowlt row
    omega
  have hrowlen : (m.grid.getD (mod row (m.size : Int)).toNat []).length = m.size := by
    rw [List.getD_eq_getElem?_getD, List.getElem?_eq_getElem hrl]
    exact hwf.2 _ (List.getElem_mem hrl)
  refine ⟨?_, ?_, ?_, ?_, ?_⟩
  · unfold Map.get
    rw [mod_add_cancel row _ hmz, mod_add_cancel col _ hmz]
  · unfold Map.get
    rw [List.getElem?_eq_getElem hrl]
    have hmem : m.grid[(mod row (m.size : Int)).toNat] ∈ m.grid := List.getElem_mem hrl
    have hlen2 : (m.grid[(mod row (m.size : Int)).toNat]).length = m.size := hwf.2 _ hmem
    have hc := hrowlt col
    have hcl : (mod col (m.size : Int)).toNat
        < (m.grid[(mod row (m.size : Int)).toNat]).length := by omega
    rw [Option.some_bind, List.getElem?_eq_getElem hcl]
    rfl
  · unfold Map.get
    have h0 : mod ((m.size : Nat) : Int) ((m.size : Nat) : Int) = mod 0 ((m.size : Nat) : Int) := by
      have := mod_add_cancel 0 (m.size : Int) hmz
      simpa using this
    rw [h0]
  · constructor
    · simp only [Map.set, List.length_set]
      exact hgridlen
    · intro r hr
      simp only [Map.set] at hr
      rcases List.mem_or_eq_of_mem_set hr with hold | hnew
      · exact hwf.2 r hold
      · subst hnew
        rw [List.length_set]
        exact hrowlen
  · simp only [Map.get, Map.set]
    rw [List.getElem?_set_self hrl]
    rw [Option.some_bind]
    have hc := hrowlt col
    rw [List.getElem?_set_self (by omega)]

/-- Witness for claim C7 on a concrete 2×2 map with out-of-range
coordinates. -/
theorem claim7_toroidal_witness :
    Map.get (mkMap 2) (5 + (mkMap 2).size) (-3 + (mkMap 2).size) = Map.get (mkMap 2) 5 (-3)
    ∧ (Map.get (mkMap 2) 5 (-3)).isSome = true
    ∧ Map.get (mkMap 2) 5 ((mkMap 2).size : Int) = Map.get (mkMap 2) 5 0
    ∧ (Map.set (mkMap 2) 5 (-3) ((7 : ℚ) / 2)).wf
    ∧ Map.get (Map.set (mkMap 2) 5 (-3) ((7 : ℚ) / 2)) 5 (-3) = some ⌊(7 : ℚ) / 2⌋ :=
  claim7_toroidal (mkMap 2) 5 (-3) ((7 : ℚ) / 2)
    ⟨by decide, by unfold mkMap; decide⟩ (by decide)

/-! ## Claim C8: diamond-square stays in `[0, maxHeight]` -/

/-- `clamp` always lands in `[0, max]` when `max` is non-negative, whatever
value (random perturbations included) is thrown at it. -/
theorem clamp_range (val max : ℚ) (hmax : 0 ≤ max) :
    0 ≤ clamp val max ∧ clamp val max ≤ max := by
  unfold clamp
  split_ifs with h1 h2
  · exact ⟨le_refl 0, hmax⟩
  · exact ⟨hmax, le_refl max⟩
  · constructor
    · exact_mod_cast Int.floor_nonneg.mpr (not_lt.mp h1)
    · calc ((⌊val⌋ : ℚ)) ≤ val := Int.floor_le val
        _ ≤ max := not_lt.mp h2

/-- Every perturbed average is clamped into `[0, maxHeight]` before being
stored — independent of the average, the variation bound and the random
draw. -/
theorem varyFromAverage_range (vals : List ℚ) (varyBy r : ℚ) :
    0 ≤ varyFromAverage vals varyBy r
    ∧ varyFromAverage vals varyBy r ≤ (maxHeight : ℚ) := by
  unfold varyFromAverage vary
  exact clamp_range _ _ (by norm_num [maxHeight, maxHeightBits])

/-- `Map.set` with a value in `[0, maxHeight]` preserves the grid range
invariant. -/
theorem allInRange_set (m : Map) (row col : Int) (v : ℚ) (hm : m.allInRange)
    (h0 : 0 ≤ v) (h1 : v ≤ (maxHeight : ℚ)) : (Map.set m row col v).allInRange := by
  have hfloor0 : (0 : Int) ≤ ⌊v⌋ := Int.floor_nonneg.mpr h0
  have hfloor1 : ⌊v⌋ ≤ maxHeight := by
    have := Int.floor_le_floor h1
    rwa [Int.floor_intCast] at this
  intro r hr
  simp only [Map.set] at hr
  rcases List.mem_or_eq_of_mem_set hr with hold | hnew
  · exact hm r hold
  · subst hnew
    intro x hx
    rcases List.mem_or_eq_of_mem_set hx with hxold | hxnew
    · by_cases hR : (mod row (m.size : Int)).toNat < m.grid.length
      · have : m.grid.getD (mod row (m.size : Int)).toNat [] ∈ m.grid := by
          rw [List.getD_eq_getElem?_getD, List.getElem?_eq_getElem hR]
          exact List.getElem_mem hR
        exact hm _ this x hxold
      · rw [List.getD_eq_getElem?_getD, List.getElem?_eq_none (by omega)] at hxold
        exact absurd hxold (List.not_mem_nil x)
    · subst hxnew
      exact ⟨hfloor0, hfloor1⟩

/-- The diamond/square recursion only ever writes clamped values, so it
preserves the range invariant for any fuel, any coordinates and any random
stream. -/
theorem dsGo_allInRange (rng : Nat → ℚ) :
    ∀ (fuel : Nat) (flag : Bool) (row col size : Int) (m : Map) (k : Nat),
      m.allInRange → ((dsGo rng fuel flag row col size m k).1).allInRange := by
  intro fuel
  induction fuel with
  | zero => intro flag row col size m k hm; exact hm
  | succ fuel ih =>
    intro flag row col size m k hm
    simp only [dsGo]
    split
    · exact hm
    · split
      · exact ih _ _ _ _ _ _ (ih _ _ _ _ _ _ (allInRange_set _ _ _ _ hm
          (varyFromAverage_range _ _ _).1 (varyFromAverage_range _ _ _).2))
      · exact ih _ _ _ _ _ _ (ih _ _ _ _ _ _ (allInRange_set _ _ _ _ hm
          (varyFromAverage_range _ _ _).1 (varyFromAverage_range _ _ _).2))

/-- The freshly constructed all-zero grid satisfies the range invariant. -/
theorem mkMap_allInRange (size : Nat) : (mkMap size).allInRange := by
  intro row hrow v hv
  have hrow0 : row = List.replicate size 0 := List.eq_of_mem_replicate hrow
  subst hrow0
  have hv0 : v = 0 := List.eq_of_mem_replicate hv
  subst hv0
  exact ⟨le_refl 0, by norm_num [maxHeight, maxHeightBits]⟩

/-- Claim C8: after `generate()` every cell of the grid holds an elevation
in `[0, maxHeight]`, for every stream of `Math.random()` draws; and every
diamond/square value is clamped into `[0, maxHeight]` before being
stored. -/
theorem claim8_generate_range (size : Nat) (rng : Nat → ℚ) (hr : randomStream rng) :
    (Map.generate (mkMap size) rng).allInRange
    ∧ ∀ (vals : List ℚ) (varyBy r : ℚ),
        0 ≤ varyFromAverage vals varyBy r
        ∧ varyFromAverage vals varyBy r ≤ (maxHeight : ℚ) := by
  constructor
  · obtain ⟨hr0, hr1⟩ := hr 0
    have hseed0 : 0 ≤ rng 0 * (maxHeight : ℚ) :=
      mul_nonneg hr0 (by norm_num [maxHeight, maxHeightBits])
    have hseed1 : rng 0 * (maxHeight : ℚ) ≤ (maxHeight : ℚ) :=
      mul_le_of_le_one_left (by norm_num [maxHeight, maxHeightBits]) (le_of_lt hr1)
    simp only [Map.generate]
    exact dsGo_allInRange rng _ _ _ _ _ _ _
      (allInRange_set _ _ _ _ (mkMap_allInRange size) hseed0 hseed1)
  · exact fun vals varyBy r => varyFromAverage_range vals varyBy r

/-- Witness for claim C8 with the all-zero random stream on a 2×2 map. -/
theorem claim8_generate_range_witness :
    randomStream (fun _ => 0) ∧ (Map.generate (mkMap 2) (fun _ => 0)).allInRange :=
  ⟨fun _ => ⟨le_refl 0, by norm_num⟩,
    (claim8_generate_range 2 (fun _ => 0) (fun _ => ⟨le_refl 0, by norm_num⟩)).1⟩

/-! ## Claim C4: the fractal interpolation law -/

set_option maxRecDepth 8192 in
/-- Claim C6 fails on the code: the off-viewport guard in
`Viewport.#interpolate` tests `y2 >= this.width` — a *row* against the
viewport *width* — where its own comment says it excludes the case where
both *points* are off-screen.  With endpoints at screen columns -1 and 160
(both fully off a 160-wide viewport) and `y2 = 5 < 160`, the guard does not
fire and the call draws on-screen columns: the emitted command list is
non-empty even though the spec's condition for an immediate, drawless
return holds. -/
theorem claim6_offscreen_guard_bug :
    bothEndpointsOffViewport (-1) 160 viewportWidth
    ∧ (interpolate linearInterpolation viewportWidth 32 resetState
        0 0 (-1) 160 5 5 0).commands ≠ [] := by
  constructor
  · exact ⟨Or.inl (by decide), Or.inr (by decide)⟩
  · decide

/-! ## Claim C5: the domain of `tan` -/

/-- Claim C5: `tan` yields an explicit `undefined` (and never an
out-of-bounds table read) exactly at the angles congruent to the
quarter-circle or three-quarter-circle point modulo a full circle; and the
single quarter-circle table serves the whole circle — `tan` has period
`halfCircle`. -/
theorem claim5_tan_domain (a : Int) :
    ((tan a).isSome = true
      ↔ ¬ (a % fullCircle = quarterCircle ∨ a % fullCircle = quarterCircle + halfCircle))
    ∧ tan (a + halfCircle) = tan a := by
  have hq : quarterCircle = 360 := by norm_num [quarterCircle, angleUnitPowerOfTwo]
  have hhalf : halfCircle = 720 := by norm_num [halfCircle, angleUnitPowerOfTwo]
  have hfull : fullCircle = 1440 := by norm_num [fullCircle, angleUnitPowerOfTwo]
  have hhalfpos : (0 : Int) < halfCircle := by rw [hhalf]; norm_num
  have hdvd_iff : ∀ b : Int, jsRem (b - quarterCircle) halfCircle = 0 ↔ halfCircle ∣ (b - quarterCircle) := by
    intro b
    unfold jsRem
    exact (Int.dvd_iff_tmod_eq_zero).symm
  have hshr : jsShr fullCircle 2 = 360 := by decide
  have hmodval : ∀ b : Int, mod b halfCircle = b % halfCircle :=
    fun b => mod_eq_emod b halfCircle hhalfpos
  constructor
  · by_cases hg : jsRem (a - quarterCircle) halfCircle = 0
    · have hdvd : halfCircle ∣ (a - quarterCircle) := (hdvd_iff a).mp hg
      rw [hq, hhalf] at hdvd
      have hcong : a % fullCircle = quarterCircle ∨ a % fullCircle = quarterCircle + halfCircle := by
        rw [hq, hhalf, hfull]
        omega
      simp only [tan, if_pos hg]
      simp [hcong]
    · have hndvd : ¬ halfCircle ∣ (a - quarterCircle) := fun hc => hg ((hdvd_iff a).mpr hc)
      rw [hq, hhalf] at hndvd
      have hncong : ¬ (a % fullCircle = quarterCircle ∨ a % fullCircle = quarterCircle + halfCircle) := by
        rw [hq, hhalf, hfull]
        omega
      have hrange := mod_range a halfCircle hhalfpos
      have hne360 : mod a halfCircle ≠ quarterCircle := by
        rw [hmodval a, hq]
        rw [hhalf]
        omega
      have hidx : 0 ≤ (if mod a halfCircle > quarterCircle then halfCircle - mod a halfCircle
            else mod a halfCircle)
          ∧ (if mod a halfCircle > quarterCircle then halfCircle - mod a halfCircle
            else mod a halfCircle) < jsShr fullCircle 2 := by
        rw [hshr]
        simp only [hq, hhalf] at hne360 hrange ⊢
        split <;> omega
      simp only [tan, if_neg hg, tableGet, if_pos hidx]
      simp [hncong]
  · have hsub : a + halfCircle - quarterCircle = (a - quarterCircle) + halfCircle := by ring
    have hgiff : jsRem (a + halfCircle - quarterCircle) halfCircle = 0
        ↔ jsRem (a - quarterCircle) halfCircle = 0 := by
      rw [hdvd_iff, hdvd_iff, hsub, hq, hhalf]
      omega
    have hmodper : mod (a + halfCircle) halfCircle = mod a halfCircle :=
      mod_add_cancel a halfCircle hhalfpos
    by_cases hg : jsRem (a - quarterCircle) halfCircle = 0
    · simp only [tan, if_pos hg, if_pos (hgiff.mpr hg)]
    · simp only [tan, if_neg hg, if_neg (fun hc => hg (hgiff.mp hc)), hmodper]

/-! ## Trig table values at angle 0 (exact in both doubles and reals) -/

/-- Claim C10: whenever the pitch lies in `[0, fullCircle)` — heading,
roll, turn rate and thrust arbitrary — every trig-table read of one
`move()` step is in bounds (the step yields a state rather than the `none`
that marks an out-of-bounds read): the heading index is re-normalized
`mod fullCircle` before indexing, while the raw pitch index is covered by
the precondition. -/
theorem claim10_move_table_safety (s : Valkyrie) (h0 : 0 ≤ s.pitch)
    (h1 : s.pitch < fullCircle) : (Valkyrie.move s).isSome = true := by
  have hfc : (0 : Int) < fullCircle := by norm_num [fullCircle, angleUnitPowerOfTwo]
  have hh : 0 ≤ mod (s.heading + s.roll * s.rollToAngle) fullCircle
      ∧ mod (s.heading + s.roll * s.rollToAngle) fullCircle < fullCircle :=
    mod_range (s.heading + s.roll * s.rollToAngle) fullCircle hfc
  have hpitch : 0 ≤ s.pitch ∧ s.pitch < fullCircle := ⟨h0, h1⟩
  simp only [Valkyrie.move, tableGet, if_pos hh, if_pos hpitch]
  rfl

/-- Witness for claim C10 at the game's initial ship state (pitch 0). -/
theorem claim10_move_table_safety_witness :
    (0 : Int) ≤ initialShip.pitch
    ∧ initialShip.pitch < fullCircle
    ∧ (Valkyrie.move initialShip).isSome = true :=
  ⟨by decide, by decide,
    claim10_move_table_safety initialShip (by decide) (by decide)⟩

end Jaggilines
